import Mathlib

/-!
Verification of the QuarkChain p2p framed transport (p2p/qkchandle.go) and the
SlaveConfig JSON round trip (cluster config).

The frame codec is embedded as pure functions over byte lists (`Bytes`).  The
external cryptographic collaborators (the stream-cipher keystream, the Keccak
digest and the AES block cipher behind the running MACs, and the snappy codec)
are parameters of the embedded functions, as the spec treats them as supplied
by external collaborators.
-/

set_option maxHeartbeats 1000000

namespace QKC

/-- Byte sequences are lists of naturals; every byte the code produces is below 256. -/
abbrev Bytes := List Nat

/-- Maximum 24-bit value: the rlpx constant maxUint24 used by both frame bound checks. -/
def maxUint24 : Nat := 16777215

/-- Value of the rlpx constant baseProtocolLength, assigned to msg.Code at line 159. -/
def baseProtocolLength : Nat := 16

/-- Go p2p.Msg as used here: message code, declared size, and payload bytes. -/
structure Msg where
  code : Nat
  size : Nat
  payload : Bytes
deriving DecidableEq

/-- One direction of the secure channel: the stream-cipher position (number of
keystream bytes consumed so far) and the transcript of all bytes absorbed by
the running MAC accumulator. -/
structure HalfState where
  pos : Nat
  macTrans : Bytes
deriving DecidableEq

/-- Digest and block-cipher functions backing the running MACs (Keccak256 and
AES in the real code, supplied by the external key-exchange collaborator). -/
structure MacCtx where
  hash : Bytes → Bytes
  aes : Bytes → Bytes

/-- Pointwise XOR truncating to the shorter list, as the Go loop over the
16-byte aesbuf indexes into the seed. -/
def xorBytes (a b : Bytes) : Bytes := List.zipWith (fun x y => x ^^^ y) a b

/-- Modelled from the spec: the per-direction running-MAC update (rlpx
updateMAC, outside the excerpt).  It combines the current accumulator digest
with the seed through the shared MAC cipher, absorbs the combination into the
accumulator, and returns the first 16 bytes of the new digest together with
the new accumulator transcript. -/
def updateMAC (H : MacCtx) (trans seed : Bytes) : Bytes × Bytes :=
  let aesbuf := xorBytes (H.aes ((H.hash trans).take 16)) seed
  ((H.hash (trans ++ aesbuf)).take 16, trans ++ aesbuf)

/-- Modelled from the spec: a stream cipher XORKeyStream call, as XOR against a
keystream indexed by absolute position; the keystream function is supplied by
the external secure-channel collaborator and each consumed byte advances the
position. -/
def xorKeyStream (ks : Nat → Nat) : Nat → Bytes → Bytes
  | _, [] => []
  | pos, b :: bs => (b ^^^ (ks pos % 256)) :: xorKeyStream ks (pos + 1) bs

/-- Big-endian 4-byte encoding, binary.BigEndian.PutUint32 (line 177). -/
def putUint32 (n : Nat) : Bytes :=
  [n / 16777216 % 256, n / 65536 % 256, n / 256 % 256, n % 256]

/-- Big-endian decoding of the first 4 bytes, binary.BigEndian.Uint32 (line 114). -/
def getUint32 (l : Bytes) : Nat :=
  match l with
  | b0 :: b1 :: b2 :: b3 :: _ => ((b0 * 256 + b1) * 256 + b2) * 256 + b3
  | _ => 0

/-- Big-endian 3-byte encoding, for stating the layout the spec describes. -/
def putUint24 (n : Nat) : Bytes := [n / 65536 % 256, n / 256 % 256, n % 256]

/-- Big-endian decoding of the first 3 bytes, for stating the layout the spec describes. -/
def getUint24 (l : Bytes) : Nat :=
  match l with
  | b0 :: b1 :: b2 :: _ => (b0 * 256 + b1) * 256 + b2
  | _ => 0

/-- Lines 176-177: the plaintext first half of the 32-byte header buffer, the
4-byte big-endian size followed by the 12 remaining zero bytes. -/
def headPlainOf (size : Nat) : Bytes := putUint32 size ++ List.replicate 12 0

/-- Line 179: the header half encrypted with the egress stream cipher. -/
def encHeadOf (ks : Nat → Nat) (st : HalfState) (size : Nat) : Bytes :=
  xorKeyStream ks st.pos (headPlainOf size)

/-- Line 181: the 16-byte header MAC, from the egress MAC state and the encrypted header. -/
def headerMacOf (H : MacCtx) (ks : Nat → Nat) (st : HalfState) (size : Nat) : Bytes :=
  (updateMAC H st.macTrans (encHeadOf ks st size)).1

/-- Egress MAC transcript after the header MAC update of line 181. -/
def trans1Of (H : MacCtx) (ks : Nat → Nat) (st : HalfState) (size : Nat) : Bytes :=
  (updateMAC H st.macTrans (encHeadOf ks st size)).2

/-- Lines 188-195: the body encrypted by the stream cipher, whose position has
advanced past the 16 header bytes. -/
def encBodyOf (ks : Nat → Nat) (st : HalfState) (payload : Bytes) : Bytes :=
  xorKeyStream ks (st.pos + 16) payload

/-- Egress MAC transcript after the ciphertext body has been folded in (the
MultiWriter tee of line 188). -/
def trans2Of (H : MacCtx) (ks : Nat → Nat) (st : HalfState) (size : Nat) (payload : Bytes) : Bytes :=
  trans1Of H ks st size ++ encBodyOf ks st payload

/-- Lines 202-203: the trailing 16-byte frame MAC, seeded by the cumulative body MAC digest. -/
def frameMacOf (H : MacCtx) (ks : Nat → Nat) (st : HalfState) (size : Nat) (payload : Bytes) : Bytes :=
  (updateMAC H (trans2Of H ks st size payload) (H.hash (trans2Of H ks st size payload))).1

/-- Egress MAC transcript after the frame MAC update of line 203. -/
def trans3Of (H : MacCtx) (ks : Nat → Nat) (st : HalfState) (size : Nat) (payload : Bytes) : Bytes :=
  (updateMAC H (trans2Of H ks st size payload) (H.hash (trans2Of H ks st size payload))).2

/-- All bytes writeQKCMsg sends for one frame, in wire order: encrypted header,
header MAC, encrypted body, frame MAC. -/
def wireOf (H : MacCtx) (ks : Nat → Nat) (st : HalfState) (size : Nat) (payload : Bytes) : Bytes :=
  encHeadOf ks st size ++ headerMacOf H ks st size ++ encBodyOf ks st payload ++
    frameMacOf H ks st size payload

/-- Egress direction state after one successful writeQKCMsg: the cipher has
consumed 16 + body bytes and the MAC transcript ends at the frame MAC update. -/
def stAfter (H : MacCtx) (ks : Nat → Nat) (st : HalfState) (size : Nat) (payload : Bytes) :
    HalfState :=
  ⟨st.pos + 16 + payload.length, trans3Of H ks st size payload⟩

/-- Frame codec error cases, mirroring the error returns of readQKCMsg and writeQKCMsg. -/
inductive FrameError where
  | tooLarge
  | badHeaderMac
  | badFrameMac
  | shortRead
  | decodedLenErr
  | decodeErr
deriving DecidableEq

/-- writeQKCMsg, lines 163-206.  With snappy enabled it rejects messages whose
declared size exceeds maxUint24, otherwise compresses the payload with the
external snappy encoder senc and uses the compressed length as frame size.
It then emits the encrypted header, header MAC, encrypted body (folded into
the egress MAC) and trailing frame MAC, returning the wire bytes and the new
egress state. -/
def writeQKCMsg (H : MacCtx) (senc : Bytes → Bytes) (snappyOn : Bool) (ks : Nat → Nat)
    (st : HalfState) (msg : Msg) : Except FrameError (Bytes × HalfState) :=
  if snappyOn then
    if maxUint24 < msg.size then Except.error FrameError.tooLarge
    else
      let payload := senc msg.payload
      Except.ok (wireOf H ks st payload.length payload, stAfter H ks st payload.length payload)
  else
    Except.ok (wireOf H ks st msg.size msg.payload, stAfter H ks st msg.size msg.payload)

/-- Lines 140-158: the snappy step of readQKCMsg.  With snappy enabled the
declared decompressed length is decoded first (sdl), rejected above maxUint24
before any decompression, then the body is decompressed (sd) and the message
size and payload replaced; with snappy off the message passes through. -/
def snappyPostProcess (snappyOn : Bool) (sdl : Bytes → Except Unit Nat)
    (sd : Bytes → Except Unit Bytes) (m : Msg) (st2 : HalfState) (rem : Bytes) :
    Except FrameError (Msg × HalfState × Bytes) :=
  if snappyOn then
    match sdl m.payload with
    | Except.error _ => Except.error FrameError.decodedLenErr
    | Except.ok dsize =>
      if maxUint24 < dsize then Except.error FrameError.tooLarge
      else
        match sd m.payload with
        | Except.error _ => Except.error FrameError.decodeErr
        | Except.ok dp => Except.ok (⟨m.code, dsize, dp⟩, st2, rem)
  else Except.ok (m, st2, rem)

/-- readQKCMsg, lines 100-161, over an explicit incoming byte stream: read the
32-byte header block, verify the header MAC against the ingress MAC state,
decrypt the header half and take its leading big-endian length, read that many
body bytes, fold the still-encrypted body into the ingress MAC, read and
verify the 16-byte frame MAC, decrypt the body, then apply the snappy step.
Returns the message, the new ingress state and the unconsumed stream. -/
def readQKCMsg (H : MacCtx) (sdl : Bytes → Except Unit Nat) (sd : Bytes → Except Unit Bytes)
    (snappyOn : Bool) (ks : Nat → Nat) (st : HalfState) (wire : Bytes) :
    Except FrameError (Msg × HalfState × Bytes) :=
  if wire.length < 32 then Except.error FrameError.shortRead
  else
    let headBuf := wire.take 32
    let rest0 := wire.drop 32
    let um1 := updateMAC H st.macTrans (headBuf.take 16)
    if um1.1 ≠ headBuf.drop 16 then Except.error FrameError.badHeaderMac
    else
      let headPlain := xorKeyStream ks st.pos (headBuf.take 16)
      let fSize := getUint32 headPlain
      if rest0.length < fSize then Except.error FrameError.shortRead
      else
        let frameBuf := rest0.take fSize
        let rest1 := rest0.drop fSize
        let trans2 := um1.2 ++ frameBuf
        let fMacSeed := H.hash trans2
        if rest1.length < 16 then Except.error FrameError.shortRead
        else
          let macRecv := rest1.take 16
          let rest2 := rest1.drop 16
          let um2 := updateMAC H trans2 fMacSeed
          if um2.1 ≠ macRecv then Except.error FrameError.badFrameMac
          else
            let plainBody := xorKeyStream ks (st.pos + 16) frameBuf
            snappyPostProcess snappyOn sdl sd ⟨baseProtocolLength, fSize, plainBody⟩
              ⟨st.pos + 16 + fSize, um2.2⟩ rest2

/-- Bit flip used to state tampering: XOR the byte at index j with 2 to the bit. -/
def flipByte (l : Bytes) (j : Nat) (bit : Nat) : Bytes :=
  l.set j ((l.getD j 0) ^^^ 2 ^ bit)

/-- Concrete digest pair standing in for the external Keccak/AES collaborators
in witness instantiations: a 32-byte digest depending on the transcript length
and a 16-byte block depending on the input head. -/
def wH : MacCtx :=
  ⟨fun l => List.replicate 32 (l.length % 256), fun l => List.replicate 16 ((l.headD 0 + 1) % 256)⟩

/-- Concrete keystream for witness instantiations. -/
def wks : Nat → Nat := fun i => i + 3

/-- Concrete snappy encoder for witness instantiations: the identity codec. -/
def wsenc : Bytes → Bytes := fun l => l

/-- Concrete snappy decoded-length function matching wsenc. -/
def wsdl : Bytes → Except Unit Nat := fun l => Except.ok l.length

/-- Concrete snappy decoder matching wsenc. -/
def wsd : Bytes → Except Unit Bytes := fun l => Except.ok l

/-- All-zero digest pair: with it every MAC byte is zero, so frames are written
in a directly computable form, used by counterexample evaluations. -/
def wH0 : MacCtx := ⟨fun _ => List.replicate 32 0, fun _ => List.replicate 16 0⟩

/-- All-zero keystream: encryption is the identity on bytes, used by
counterexample evaluations. -/
def wks0 : Nat → Nat := fun _ => 0

end QKC

namespace QKC

/-- Domain message decoded from a frame payload, fields of qkcMsg as used by
the dispatch loop: operation code, RPC correlation id, opaque metadata, data. -/
structure QKCMsg where
  op : Nat
  rpcID : Nat
  metaData : Nat
  data : Bytes
deriving DecidableEq

/-- The externally populated registries consulted by the dispatch loop:
membership in OPSerializerMap, and presence of a fire-and-forget handler
(OPNonRPCMap) or an RPC handler (OpRPCMap) per opcode. -/
structure OpRegistry where
  serializer : Nat → Bool
  nonRpc : Nat → Option Unit
  rpc : Nat → Option Unit

/-- Handler invocation recorded by the dispatch loop: the fire-and-forget
handler receives (opcode, data); the RPC handler receives data. -/
inductive DispatchEvent where
  | nonRpcCall (op : Nat) (data : Bytes)
  | rpcCall (data : Bytes)
deriving DecidableEq

/-- One iteration input of the dispatch loop: a transport read error, a payload
buffering error, a domain decode error, or a decoded domain message. -/
inductive InItem where
  | rerr
  | perr
  | derr
  | msg (m : QKCMsg)
deriving DecidableEq

/-- How the dispatch loop left its for-loop: still awaiting input (the modelled
stream ran out), returned the nil error of line 52, or returned the read,
payload or decode error of lines 35, 41, 47. -/
inductive LoopOutcome where
  | pending
  | retNil
  | errRead
  | errPayload
  | errDecode
deriving DecidableEq

/-- qkcMsgHandle, lines 30-63, over an explicit list of loop inputs: any read,
payload or decode failure returns that error; an opcode missing from
OPSerializerMap returns the current err value, which is nil there (line 52);
otherwise the fire-and-forget handler, else the RPC handler, else nothing is
invoked, and the loop continues.  Returns the handler-invocation trace and the
loop outcome. -/
def qkcMsgHandle (reg : OpRegistry) : List InItem → List DispatchEvent × LoopOutcome
  | [] => ([], LoopOutcome.pending)
  | InItem.rerr :: _ => ([], LoopOutcome.errRead)
  | InItem.perr :: _ => ([], LoopOutcome.errPayload)
  | InItem.derr :: _ => ([], LoopOutcome.errDecode)
  | InItem.msg m :: rest =>
    if reg.serializer m.op then
      let evs :=
        match reg.nonRpc m.op with
        | some _ => [DispatchEvent.nonRpcCall m.op m.data]
        | none =>
          match reg.rpc m.op with
          | some _ => [DispatchEvent.rpcCall m.data]
          | none => []
      let tail := qkcMsgHandle reg rest
      (evs ++ tail.1, tail.2)
    else ([], LoopOutcome.retNil)

/-- Outcome of doProtoHandshake: a successful return, an error return carrying
an opaque error code, or the nil-payload crash of reading all of a nil reader. -/
inductive HsOutcome where
  | ok
  | err (e : Nat)
  | panicNilPayload
deriving DecidableEq

/-- True exactly on an error return. -/
def HsOutcome.isGoError : HsOutcome → Bool
  | HsOutcome.err _ => true
  | _ => false

/-- doProtoHandshake, lines 208-244, with the effectful calls abstracted as
inputs: the rlpx-level handshake result, the WriteMsg error, the pair ReadMsg
returned (its error and the returned message's payload, nil or bytes), and the
DecodeQKCMsg result on the buffered payload.  The code never consults the
ReadMsg error: it is overwritten by the ReadAll error at line 233, and reading
all of a nil payload crashes. -/
def doProtoHandshake (rlpxRes : Except Nat Unit) (writeErr : Option Nat)
    (readErr : Option Nat) (readPayload : Option Bytes)
    (decodeRes : Bytes → Except Nat Unit) : HsOutcome :=
  match rlpxRes with
  | Except.error e => HsOutcome.err e
  | Except.ok _ =>
    match writeErr with
    | some e => HsOutcome.err e
    | none =>
      match readPayload with
      | none => HsOutcome.panicNilPayload
      | some body =>
        match decodeRes body with
        | Except.error e => HsOutcome.err e
        | Except.ok _ => HsOutcome.ok

end QKC

namespace Config

/-- Modelled from the spec: core/types.ChainMask (outside the excerpt), a
shard/chain mask wrapping the mask value it was constructed from. -/
structure ChainMask where
  value : Nat
deriving DecidableEq

/-- Modelled from the spec: types.NewChainMask, constructing a mask from a value. -/
def NewChainMask (v : Nat) : ChainMask := ⟨v⟩

/-- Modelled from the spec: ChainMask.GetMask, returning the mask value. -/
def ChainMask.GetMask (m : ChainMask) : Nat := m.value

/-- SlaveConfig fields: host, port, id, websocket port, and the chain mask list
(excluded from plain JSON by its json:"-" tag). -/
structure SlaveConfig where
  IP : String
  Port : Nat
  ID : String
  WSPort : Nat
  ChainMaskList : List ChainMask
deriving DecidableEq

/-- A parsed JSON object restricted to the keys the two methods use: absent
keys are none, so unmarshalling leaves the corresponding field at its zero
value, as encoding/json does. -/
structure SlaveConfigJSON where
  HOST : Option String
  PORT : Option Nat
  ID : Option String
  WEBSOCKET_JSON_RPC_PORT : Option Nat
  CHAIN_MASK_LIST : Option (List Nat)
deriving DecidableEq

/-- SlaveConfig.MarshalJSON: emit the alias fields under their JSON tags plus
CHAIN_MASK_LIST holding each mask's GetMask value. -/
def MarshalJSON (s : SlaveConfig) : SlaveConfigJSON :=
  ⟨some s.IP, some s.Port, some s.ID, some s.WSPort,
    some (s.ChainMaskList.map ChainMask.GetMask)⟩

/-- SlaveConfig.UnmarshalJSON: decode the alias fields and the raw mask list,
copy the alias into the config, then force WSPort to DefaultWSPort (a constant
outside the excerpt, passed here as defaultWSPort) and rebuild ChainMaskList
with NewChainMask. -/
def UnmarshalJSON (defaultWSPort : Nat) (input : SlaveConfigJSON) : SlaveConfig :=
  let jsonConfig : SlaveConfig :=
    ⟨input.HOST.getD "", input.PORT.getD 0, input.ID.getD "",
      input.WEBSOCKET_JSON_RPC_PORT.getD 0, []⟩
  ⟨jsonConfig.IP, jsonConfig.Port, jsonConfig.ID, defaultWSPort,
    (input.CHAIN_MASK_LIST.getD []).map NewChainMask⟩

end Config

namespace QKC

theorem length_xorKeyStream (ks : Nat → Nat) (pos : Nat) (l : Bytes) :
    (xorKeyStream ks pos l).length = l.length := by
  induction l generalizing pos with
  | nil => rfl
  | cons b bs ih => simp [xorKeyStream, ih]

theorem xor_xor_cancel (b k : Nat) : (b ^^^ k) ^^^ k = b := by
  rw [Nat.xor_assoc, Nat.xor_self, Nat.xor_zero]

theorem xorKeyStream_xorKeyStream (ks : Nat → Nat) (pos : Nat) (l : Bytes) :
    xorKeyStream ks pos (xorKeyStream ks pos l) = l := by
  induction l generalizing pos with
  | nil => rfl
  | cons b bs ih => simp [xorKeyStream, ih, xor_xor_cancel]

theorem length_headPlainOf (size : Nat) : (headPlainOf size).length = 16 := by
  simp [headPlainOf, putUint32]

theorem length_encHeadOf (ks : Nat → Nat) (st : HalfState) (size : Nat) :
    (encHeadOf ks st size).length = 16 := by
  rw [encHeadOf, length_xorKeyStream, length_headPlainOf]

theorem length_encBodyOf (ks : Nat → Nat) (st : HalfState) (payload : Bytes) :
    (encBodyOf ks st payload).length = payload.length := by
  rw [encBodyOf, length_xorKeyStream]

theorem length_updateMAC_fst {H : MacCtx} (Hh : ∀ l, (H.hash l).length = 32)
    (trans seed : Bytes) : (updateMAC H trans seed).1.length = 16 := by
  simp [updateMAC, Hh]

theorem length_headerMacOf {H : MacCtx} (Hh : ∀ l, (H.hash l).length = 32)
    (ks : Nat → Nat) (st : HalfState) (size : Nat) :
    (headerMacOf H ks st size).length = 16 := by
  rw [headerMacOf]
  exact length_updateMAC_fst Hh _ _

theorem length_frameMacOf {H : MacCtx} (Hh : ∀ l, (H.hash l).length = 32)
    (ks : Nat → Nat) (st : HalfState) (size : Nat) (payload : Bytes) :
    (frameMacOf H ks st size payload).length = 16 := by
  rw [frameMacOf]
  exact length_updateMAC_fst Hh _ _

theorem getUint32_headPlainOf (n : Nat) (h : n < 4294967296) :
    getUint32 (headPlainOf n) = n := by
  simp only [headPlainOf, putUint32, List.cons_append, List.nil_append, getUint32]
  omega


theorem readQKCMsg_parse (H : MacCtx) (sdl : Bytes → Except Unit Nat)
    (sd : Bytes → Except Unit Bytes) (snappyOn : Bool) (ks : Nat → Nat) (st : HalfState)
    (size : Nat) (payload : Bytes) (tail : Bytes)
    (Hh : ∀ l, (H.hash l).length = 32)
    (hsz : size = payload.length) (hlt : size < 4294967296) (h16 : 16 ≤ tail.length) :
    readQKCMsg H sdl sd snappyOn ks st
      (encHeadOf ks st size ++ (headerMacOf H ks st size ++ (encBodyOf ks st payload ++ tail))) =
      if frameMacOf H ks st size payload = tail.take 16 then
        snappyPostProcess snappyOn sdl sd
          ⟨baseProtocolLength, size, xorKeyStream ks (st.pos + 16) (encBodyOf ks st payload)⟩
          ⟨st.pos + 16 + size, trans3Of H ks st size payload⟩ (tail.drop 16)
      else Except.error FrameError.badFrameMac := by
  have hlenA : (encHeadOf ks st size).length = 16 := length_encHeadOf ks st size
  have hlenB : (headerMacOf H ks st size).length = 16 := length_headerMacOf Hh ks st size
  have hlenC : (encBodyOf ks st payload).length = payload.length := length_encBodyOf ks st payload
  have hwlen : ¬ ((encHeadOf ks st size ++ (headerMacOf H ks st size ++
      (encBodyOf ks st payload ++ tail))).length < 32) := by
    simp only [List.length_append, hlenA, hlenB, hlenC]
    omega
  have htake32 : (encHeadOf ks st size ++ (headerMacOf H ks st size ++
      (encBodyOf ks st payload ++ tail))).take 32 =
      encHeadOf ks st size ++ headerMacOf H ks st size := by
    have h1 : (32 : Nat) = (encHeadOf ks st size).length + 16 := by rw [hlenA]
    rw [h1, List.take_append]
    have h2 : (headerMacOf H ks st size ++ (encBodyOf ks st payload ++ tail)).take 16 =
        headerMacOf H ks st size := List.take_left' hlenB
    rw [h2]
  have hdrop32 : (encHeadOf ks st size ++ (headerMacOf H ks st size ++
      (encBodyOf ks st payload ++ tail))).drop 32 = encBodyOf ks st payload ++ tail := by
    have h1 : (32 : Nat) = (encHeadOf ks st size).length + 16 := by rw [hlenA]
    rw [h1, List.drop_append]
    exact List.drop_left' hlenB
  have htakehd : (encHeadOf ks st size ++ headerMacOf H ks st size).take 16 =
      encHeadOf ks st size := List.take_left' hlenA
  have hdrophd : (encHeadOf ks st size ++ headerMacOf H ks st size).drop 16 =
      headerMacOf H ks st size := List.drop_left' hlenA
  have hplain : xorKeyStream ks st.pos (encHeadOf ks st size) = headPlainOf size := by
    rw [encHeadOf, xorKeyStream_xorKeyStream]
  have hfsize : getUint32 (headPlainOf size) = size := getUint32_headPlainOf size hlt
  have hbodylen : ¬ ((encBodyOf ks st payload ++ tail).length < size) := by
    simp only [List.length_append, hlenC]
    omega
  have htakebody : (encBodyOf ks st payload ++ tail).take size = encBodyOf ks st payload :=
    List.take_left' (by rw [hlenC, hsz])
  have hdropbody : (encBodyOf ks st payload ++ tail).drop size = tail :=
    List.drop_left' (by rw [hlenC, hsz])
  have htaillen : ¬ (tail.length < 16) := by omega
  rw [readQKCMsg]
  simp only [htake32, hdrop32, htakehd, hdrophd, hplain, hfsize, htakebody, hdropbody,
    if_neg hwlen, if_neg hbodylen, if_neg htaillen]
  rw [if_neg (by simp [headerMacOf])]
  have hfm : (updateMAC H ((updateMAC H st.macTrans (encHeadOf ks st size)).2 ++
      encBodyOf ks st payload)
      (H.hash ((updateMAC H st.macTrans (encHeadOf ks st size)).2 ++ encBodyOf ks st payload))).1 =
      frameMacOf H ks st size payload := rfl
  have hfm2 : (updateMAC H ((updateMAC H st.macTrans (encHeadOf ks st size)).2 ++
      encBodyOf ks st payload)
      (H.hash ((updateMAC H st.macTrans (encHeadOf ks st size)).2 ++ encBodyOf ks st payload))).2 =
      trans3Of H ks st size payload := rfl
  rw [hfm, hfm2, ite_not]

theorem readQKCMsg_wireOf (H : MacCtx) (sdl : Bytes → Except Unit Nat)
    (sd : Bytes → Except Unit Bytes) (snappyOn : Bool) (ks : Nat → Nat) (st : HalfState)
    (size : Nat) (payload : Bytes) (rest : Bytes)
    (Hh : ∀ l, (H.hash l).length = 32)
    (hsz : size = payload.length) (hlt : size < 4294967296) :
    readQKCMsg H sdl sd snappyOn ks st (wireOf H ks st size payload ++ rest) =
      snappyPostProcess snappyOn sdl sd ⟨baseProtocolLength, size, payload⟩
        ⟨st.pos + 16 + size, trans3Of H ks st size payload⟩ rest := by
  have hassoc : wireOf H ks st size payload ++ rest =
      encHeadOf ks st size ++ (headerMacOf H ks st size ++
        (encBodyOf ks st payload ++ (frameMacOf H ks st size payload ++ rest))) := by
    simp [wireOf, List.append_assoc]
  have hlenD : (frameMacOf H ks st size payload).length = 16 := length_frameMacOf Hh ks st size payload
  have h16 : 16 ≤ (frameMacOf H ks st size payload ++ rest).length := by
    simp [List.length_append, hlenD]
  rw [hassoc, readQKCMsg_parse H sdl sd snappyOn ks st size payload _ Hh hsz hlt h16]
  rw [if_pos (List.take_left' hlenD).symm, List.drop_left' hlenD]
  rw [encBodyOf, xorKeyStream_xorKeyStream]

/-- C1: for every payload of valid byte length (0 up to maxUint24), writing a
message with writeQKCMsg and reading the produced frame back with readQKCMsg
over a matching cipher/MAC state pair, with compression uniformly on or off on
both sides, succeeds and yields a message whose payload bytes equal the
original payload bytes exactly.  The keystream, MAC digest functions and
snappy codec are the external collaborators; the snappy hypotheses say the
external codec is a faithful compressor. -/
theorem C1_frame_roundtrip (H : MacCtx) (senc : Bytes → Bytes)
    (sdl : Bytes → Except Unit Nat) (sd : Bytes → Except Unit Bytes)
    (snappyOn : Bool) (ks : Nat → Nat) (st : HalfState) (msg : Msg) (rest : Bytes)
    (Hh : ∀ l, (H.hash l).length = 32)
    (hsz : msg.size = msg.payload.length)
    (hmax : msg.size ≤ maxUint24)
    (hdl : ∀ l, sdl (senc l) = Except.ok l.length)
    (hd : ∀ l, sd (senc l) = Except.ok l)
    (hel : ∀ l, l.length ≤ maxUint24 → (senc l).length < 4294967296) :
    ∃ wire st2 msg2 st3,
      writeQKCMsg H senc snappyOn ks st msg = Except.ok (wire, st2) ∧
      readQKCMsg H sdl sd snappyOn ks st (wire ++ rest) = Except.ok (msg2, st3, rest) ∧
      msg2.payload = msg.payload := by
  cases snappyOn with
  | false =>
    refine ⟨wireOf H ks st msg.size msg.payload, stAfter H ks st msg.size msg.payload,
      ⟨baseProtocolLength, msg.size, msg.payload⟩,
      ⟨st.pos + 16 + msg.size, trans3Of H ks st msg.size msg.payload⟩, rfl, ?_, rfl⟩
    rw [readQKCMsg_wireOf H sdl sd false ks st msg.size msg.payload rest Hh hsz
      (by have := hmax; rw [maxUint24] at this; omega)]
    rfl
  | true =>
    have hplen : (senc msg.payload).length < 4294967296 := by
      refine hel msg.payload ?_
      rw [← hsz]
      exact hmax
    refine ⟨wireOf H ks st (senc msg.payload).length (senc msg.payload),
      stAfter H ks st (senc msg.payload).length (senc msg.payload),
      ⟨baseProtocolLength, msg.payload.length, msg.payload⟩,
      ⟨st.pos + 16 + (senc msg.payload).length,
        trans3Of H ks st (senc msg.payload).length (senc msg.payload)⟩, ?_, ?_, rfl⟩
    · rw [writeQKCMsg, if_pos rfl, if_neg (by omega)]
    · rw [readQKCMsg_wireOf H sdl sd true ks st (senc msg.payload).length (senc msg.payload)
        rest Hh rfl hplen]
      rw [snappyPostProcess, if_pos rfl]
      simp only [hdl msg.payload, hd msg.payload]
      rw [if_neg (by rw [← hsz]; omega)]

theorem C1_frame_roundtrip_witness :
    ∃ wire st2 msg2 st3,
      writeQKCMsg wH wsenc true wks ⟨5, [1, 2]⟩ ⟨0, 2, [10, 250]⟩ = Except.ok (wire, st2) ∧
      readQKCMsg wH wsdl wsd true wks ⟨5, [1, 2]⟩ (wire ++ [9, 9]) =
        Except.ok (msg2, st3, [9, 9]) ∧
      msg2.payload = [10, 250] :=
  C1_frame_roundtrip wH wsenc wsdl wsd true wks ⟨5, [1, 2]⟩ ⟨0, 2, [10, 250]⟩ [9, 9]
    (fun l => by simp [wH]) rfl (by decide) (fun l => rfl) (fun l => rfl)
    (fun l h => Nat.lt_of_le_of_lt h (by decide))

/-- C2 counterexample: with the all-zero digest pair and keystream (so the
written header is directly visible), a frame for a 1-byte body has a decrypted
header whose first 3 bytes are not the 3-byte big-endian body length: they
decode to 0, while readQKCMsg recovers the body length 1 (from 4 bytes).  So
the claimed 3-byte-length-plus-13-padding layout does not hold of the code. -/
theorem C2_counterexample :
    (writeQKCMsg wH0 wsenc false wks0 ⟨0, []⟩ ⟨0, 1, [5]⟩).toOption.map
        (fun p => ((decide ((xorKeyStream wks0 0 (p.1.take 16)).take 3 = putUint24 1)),
          getUint24 ((xorKeyStream wks0 0 (p.1.take 16)).take 3),
          (readQKCMsg wH0 wsdl wsd false wks0 ⟨0, []⟩ p.1).toOption.map
            (fun r => r.1.size))) = some (false, 0, some 1) := by decide

/-- C2 (amended): for every frame produced by writeQKCMsg, the 16-byte
encrypted header block encodes the body length as a 4-byte big-endian integer
followed by 12 bytes of padding, and readQKCMsg recovers the body length from
exactly those 4 bytes (the trailing 12 padding bytes do not influence the
recovered length). -/
theorem C2_header_layout (H : MacCtx) (senc : Bytes → Bytes)
    (sdl : Bytes → Except Unit Nat) (sd : Bytes → Except Unit Bytes)
    (ks : Nat → Nat) (st : HalfState) (msg : Msg) (rest : Bytes)
    (Hh : ∀ l, (H.hash l).length = 32)
    (hsz : msg.size = msg.payload.length) (hlt : msg.size < 4294967296) :
    ∃ w st2,
      writeQKCMsg H senc false ks st msg = Except.ok (w, st2) ∧
      xorKeyStream ks st.pos (w.take 16) = putUint32 msg.size ++ List.replicate 12 0 ∧
      getUint32 (xorKeyStream ks st.pos (w.take 16)) = msg.size ∧
      (readQKCMsg H sdl sd false ks st (w ++ rest)).toOption.map (fun r => r.1.size) =
        some msg.size ∧
      (∀ junk : Bytes, getUint32 (putUint32 msg.size ++ junk) = msg.size) := by
  refine ⟨wireOf H ks st msg.size msg.payload, stAfter H ks st msg.size msg.payload, rfl,
    ?_, ?_, ?_, ?_⟩
  · have htk : (wireOf H ks st msg.size msg.payload).take 16 = encHeadOf ks st msg.size := by
      rw [wireOf, List.append_assoc, List.append_assoc]
      exact List.take_left' (length_encHeadOf ks st msg.size)
    rw [htk, encHeadOf, xorKeyStream_xorKeyStream, headPlainOf]
  · have htk : (wireOf H ks st msg.size msg.payload).take 16 = encHeadOf ks st msg.size := by
      rw [wireOf, List.append_assoc, List.append_assoc]
      exact List.take_left' (length_encHeadOf ks st msg.size)
    rw [htk, encHeadOf, xorKeyStream_xorKeyStream]
    exact getUint32_headPlainOf msg.size hlt
  · rw [readQKCMsg_wireOf H sdl sd false ks st msg.size msg.payload rest Hh hsz hlt]
    rfl
  · intro junk
    have h4 : getUint32 (putUint32 msg.size ++ junk) =
        getUint32 (headPlainOf msg.size) := by
      simp [putUint32, getUint32, headPlainOf]
    rw [h4]
    exact getUint32_headPlainOf msg.size hlt

theorem C2_header_layout_witness :
    ∃ w st2,
      writeQKCMsg wH wsenc false wks ⟨5, [1, 2]⟩ ⟨0, 3, [7, 8, 9]⟩ = Except.ok (w, st2) ∧
      xorKeyStream wks 5 (w.take 16) = putUint32 3 ++ List.replicate 12 0 ∧
      getUint32 (xorKeyStream wks 5 (w.take 16)) = 3 ∧
      (readQKCMsg wH wsdl wsd false wks ⟨5, [1, 2]⟩ (w ++ [4, 4])).toOption.map
        (fun r => r.1.size) = some 3 ∧
      (∀ junk : Bytes, getUint32 (putUint32 3 ++ junk) = 3) :=
  C2_header_layout wH wsenc wsdl wsd wks ⟨5, [1, 2]⟩ ⟨0, 3, [7, 8, 9]⟩ [4, 4]
    (fun l => by simp [wH]) rfl (by decide)

/-- C3 (code-bug evaluation): for a registry whose serializer map only knows
opcode 1, a decoded message with opcode 7 followed by a further message makes
the dispatch loop terminate at once with no handler invocation, but the value
returned is the stale nil error of line 52 (retNil), not a protocol error. -/
theorem C3_unregistered_op_returns_nil :
    qkcMsgHandle
      ⟨fun op => op == 1, fun op => if op == 1 then some () else none, fun _ => none⟩
      [InItem.msg ⟨7, 11, 0, [3]⟩, InItem.msg ⟨1, 12, 0, [4]⟩] =
      ([], LoopOutcome.retNil) := by decide

/-- C4 (code-bug evaluation): with the rlpx handshake and the hello write
succeeding but the frame read failing (ReadMsg returns an error together with
the zero Msg, whose payload is nil), doProtoHandshake does not return an
error: the ReadMsg error is overwritten at line 233 and buffering the nil
payload crashes instead. -/
theorem C4_read_error_not_returned :
    doProtoHandshake (Except.ok ()) none (some 3) none (fun _ => Except.ok ()) =
      HsOutcome.panicNilPayload ∧
    HsOutcome.isGoError
      (doProtoHandshake (Except.ok ()) none (some 3) none (fun _ => Except.ok ())) =
      false := by decide

/-- C8: for a decoded domain message whose opcode has a serializer, the
dispatch loop invokes the registered fire-and-forget handler exactly once with
(opcode, data); if no fire-and-forget handler is registered but an RPC handler
is, the RPC handler is invoked exactly once with data; in both cases the loop
continues with the remaining input. -/
theorem C8_dispatch_routes (reg : OpRegistry) (m : QKCMsg) (rest : List InItem)
    (hs : reg.serializer m.op = true) :
    (∀ u : Unit, reg.nonRpc m.op = some u →
      qkcMsgHandle reg (InItem.msg m :: rest) =
        (DispatchEvent.nonRpcCall m.op m.data :: (qkcMsgHandle reg rest).1,
          (qkcMsgHandle reg rest).2)) ∧
    (reg.nonRpc m.op = none → ∀ u : Unit, reg.rpc m.op = some u →
      qkcMsgHandle reg (InItem.msg m :: rest) =
        (DispatchEvent.rpcCall m.data :: (qkcMsgHandle reg rest).1,
          (qkcMsgHandle reg rest).2)) := by
  refine ⟨?_, ?_⟩
  · intro u hnr
    simp [qkcMsgHandle, hs, hnr]
  · intro hnr u hr
    simp [qkcMsgHandle, hs, hnr, hr]

theorem C8_dispatch_routes_witness :
    qkcMsgHandle
      ⟨fun op => op == 1, fun op => if op == 1 then some () else none, fun _ => none⟩
      [InItem.msg ⟨1, 0, 0, [9]⟩] =
      ([DispatchEvent.nonRpcCall 1 [9]], LoopOutcome.pending) := by
  have h := (C8_dispatch_routes
    ⟨fun op => op == 1, fun op => if op == 1 then some () else none, fun _ => none⟩
    ⟨1, 0, 0, [9]⟩ [] (by decide)).1 () (by decide)
  simpa [qkcMsgHandle] using h

theorem getD_append_middle (pre mid post : Bytes) (i : Nat) (h : i < mid.length) :
    (pre ++ (mid ++ post)).getD (pre.length + i) 0 = mid.getD i 0 := by
  rw [List.getD_eq_getElem?_getD, List.getD_eq_getElem?_getD]
  rw [List.getElem?_append_right (by omega)]
  have hidx : pre.length + i - pre.length = i := by omega
  rw [hidx, List.getElem?_append_left h]

theorem flipByte_append_middle (pre mid post : Bytes) (i bit : Nat) (h : i < mid.length) :
    flipByte (pre ++ (mid ++ post)) (pre.length + i) bit =
      pre ++ ((mid.set i ((mid.getD i 0) ^^^ 2 ^ bit)) ++ post) := by
  rw [flipByte, getD_append_middle pre mid post i h]
  rw [List.set_append_right _ _ (by omega)]
  have hidx : pre.length + i - pre.length = i := by omega
  rw [hidx, List.set_append_left _ _ h]

theorem set_flip_ne (l : Bytes) (i bit : Nat) (h : i < l.length) :
    l.set i ((l.getD i 0) ^^^ 2 ^ bit) ≠ l := by
  intro he
  have hg := congrArg (fun t => t[i]?) he
  simp only [List.getElem?_set_self h] at hg
  rw [List.getD_eq_getElem?_getD] at hg
  cases hl : l[i]? with
  | none => exact absurd hl (by simp [h])
  | some b =>
    rw [hl] at hg
    simp only [Option.getD_some] at hg
    have hb : b ^^^ 2 ^ bit = b ^^^ 0 := by
      rw [Nat.xor_zero]
      exact Option.some.inj hg
    have h0 : (2 : Nat) ^ bit = 0 := Nat.xor_right_inj.mp hb
    exact absurd h0 (Nat.pos_pow_of_pos bit (by norm_num)).ne'

theorem length_wireOf {H : MacCtx} (Hh : ∀ l, (H.hash l).length = 32)
    (ks : Nat → Nat) (st : HalfState) (size : Nat) (payload : Bytes) :
    (wireOf H ks st size payload).length = 48 + payload.length := by
  simp only [wireOf, List.length_append, length_encHeadOf, length_headerMacOf Hh,
    length_encBodyOf, length_frameMacOf Hh]
  omega

theorem readQKCMsg_badHeaderMac (H : MacCtx) (sdl : Bytes → Except Unit Nat)
    (sd : Bytes → Except Unit Bytes) (snappyOn : Bool) (ks : Nat → Nat) (st : HalfState)
    (size : Nat) (B2 post : Bytes)
    (hlenB2 : B2.length = 16) (hne : B2 ≠ headerMacOf H ks st size) :
    readQKCMsg H sdl sd snappyOn ks st (encHeadOf ks st size ++ (B2 ++ post)) =
      Except.error FrameError.badHeaderMac := by
  have hlenA : (encHeadOf ks st size).length = 16 := length_encHeadOf ks st size
  have hwlen : ¬ ((encHeadOf ks st size ++ (B2 ++ post)).length < 32) := by
    simp only [List.length_append, hlenA, hlenB2]
    omega
  have htake32 : (encHeadOf ks st size ++ (B2 ++ post)).take 32 =
      encHeadOf ks st size ++ B2 := by
    have h1 : (32 : Nat) = (encHeadOf ks st size).length + 16 := by rw [hlenA]
    rw [h1, List.take_append, List.take_left' hlenB2]
  rw [readQKCMsg]
  simp only [htake32, if_neg hwlen, List.take_left' hlenA, List.drop_left' hlenA]
  rw [if_pos ?_]
  intro hcontra
  exact hne (by rw [headerMacOf, ← hcontra])

theorem bitflip_read_fails (H : MacCtx) (sdl : Bytes → Except Unit Nat)
    (sd : Bytes → Except Unit Bytes) (snappyOn : Bool) (ks : Nat → Nat) (st : HalfState)
    (size : Nat) (payload : Bytes) (rest : Bytes) (i bit : Nat) (inHeader : Bool)
    (Hh : ∀ l, (H.hash l).length = 32)
    (hsz : size = payload.length) (hlt : size < 4294967296) (hi : i < 16) :
    readQKCMsg H sdl sd snappyOn ks st
      (flipByte (wireOf H ks st size payload ++ rest)
        (if inHeader then 16 + i else (32 + size) + i) bit) =
      Except.error (if inHeader then FrameError.badHeaderMac else FrameError.badFrameMac) := by
  have hlenA : (encHeadOf ks st size).length = 16 := length_encHeadOf ks st size
  have hlenB : (headerMacOf H ks st size).length = 16 := length_headerMacOf Hh ks st size
  have hlenC : (encBodyOf ks st payload).length = payload.length := length_encBodyOf ks st payload
  have hlenD : (frameMacOf H ks st size payload).length = 16 :=
    length_frameMacOf Hh ks st size payload
  cases inHeader with
  | true =>
    have hassoc : wireOf H ks st size payload ++ rest =
        encHeadOf ks st size ++ (headerMacOf H ks st size ++
          (encBodyOf ks st payload ++ (frameMacOf H ks st size payload ++ rest))) := by
      simp [wireOf, List.append_assoc]
    have hpos : (16 : Nat) + i = (encHeadOf ks st size).length + i := by rw [hlenA]
    simp only [if_pos rfl, reduceIte]
    rw [hassoc, hpos,
      flipByte_append_middle _ _ _ i bit (by rw [hlenB]; exact hi)]
    exact readQKCMsg_badHeaderMac H sdl sd snappyOn ks st size _ _
      (by rw [List.length_set, hlenB])
      (set_flip_ne (headerMacOf H ks st size) i bit (by rw [hlenB]; exact hi))
  | false =>
    have hassoc : wireOf H ks st size payload ++ rest =
        (encHeadOf ks st size ++ (headerMacOf H ks st size ++ encBodyOf ks st payload)) ++
          (frameMacOf H ks st size payload ++ rest) := by
      simp [wireOf, List.append_assoc]
    have hpos : (32 : Nat) + size + i =
        (encHeadOf ks st size ++ (headerMacOf H ks st size ++ encBodyOf ks st payload)).length
          + i := by
      simp only [List.length_append, hlenA, hlenB, hlenC]
      omega
    have hcond : ((false : Bool) = true) = False := by simp
    simp only [hcond, if_false]
    rw [hassoc, hpos,
      flipByte_append_middle _ _ _ i bit (by rw [hlenD]; exact hi)]
    have hre : (encHeadOf ks st size ++ (headerMacOf H ks st size ++ encBodyOf ks st payload)) ++
        ((frameMacOf H ks st size payload).set i
          (((frameMacOf H ks st size payload).getD i 0) ^^^ 2 ^ bit) ++ rest) =
        encHeadOf ks st size ++ (headerMacOf H ks st size ++ (encBodyOf ks st payload ++
          ((frameMacOf H ks st size payload).set i
            (((frameMacOf H ks st size payload).getD i 0) ^^^ 2 ^ bit) ++ rest))) := by
      simp [List.append_assoc]
    rw [hre, readQKCMsg_parse H sdl sd snappyOn ks st size payload _ Hh hsz hlt
      (by rw [List.length_append, List.length_set, hlenD]; omega)]
    rw [if_neg ?_]
    rw [List.take_left' (by rw [List.length_set, hlenD])]
    intro hcontra
    exact set_flip_ne (frameMacOf H ks st size payload) i bit (by rw [hlenD]; exact hi)
      hcontra.symm

/-- C5: for every payload and matching state pair, flipping any single bit of
any byte of the transmitted 16-byte header MAC makes readQKCMsg fail with the
bad-header-MAC integrity error, and flipping any single bit of any byte of the
trailing 16-byte frame MAC makes it fail with the bad-frame-MAC integrity
error, instead of returning a message. -/
theorem C5_mac_bitflip (H : MacCtx) (senc : Bytes → Bytes)
    (sdl : Bytes → Except Unit Nat) (sd : Bytes → Except Unit Bytes)
    (snappyOn : Bool) (ks : Nat → Nat) (st : HalfState) (msg : Msg) (rest : Bytes)
    (i bit : Nat) (inHeader : Bool)
    (Hh : ∀ l, (H.hash l).length = 32)
    (hsz : msg.size = msg.payload.length)
    (hmax : msg.size ≤ maxUint24)
    (hel : ∀ l, l.length ≤ maxUint24 → (senc l).length < 4294967296)
    (hi : i < 16) :
    ∃ w st2,
      writeQKCMsg H senc snappyOn ks st msg = Except.ok (w, st2) ∧
      readQKCMsg H sdl sd snappyOn ks st
        (flipByte (w ++ rest) (if inHeader then 16 + i else (w.length - 16) + i) bit) =
        Except.error (if inHeader then FrameError.badHeaderMac else FrameError.badFrameMac) := by
  cases snappyOn with
  | false =>
    refine ⟨wireOf H ks st msg.size msg.payload, stAfter H ks st msg.size msg.payload,
      rfl, ?_⟩
    have hlen2 : (wireOf H ks st msg.size msg.payload).length - 16 + i =
        (32 + msg.size) + i := by
      rw [length_wireOf Hh, ← hsz]
      omega
    rw [hlen2]
    exact bitflip_read_fails H sdl sd false ks st msg.size msg.payload rest i bit inHeader
      Hh hsz (by have := hmax; rw [maxUint24] at this; omega) hi
  | true =>
    have hplen : (senc msg.payload).length < 4294967296 := by
      refine hel msg.payload ?_
      rw [← hsz]
      exact hmax
    refine ⟨wireOf H ks st (senc msg.payload).length (senc msg.payload),
      stAfter H ks st (senc msg.payload).length (senc msg.payload), ?_, ?_⟩
    · rw [writeQKCMsg, if_pos rfl, if_neg (by omega)]
    · have hlen2 : (wireOf H ks st (senc msg.payload).length (senc msg.payload)).length - 16
          + i = (32 + (senc msg.payload).length) + i := by
        rw [length_wireOf Hh]
        omega
      rw [hlen2]
      exact bitflip_read_fails H sdl sd true ks st (senc msg.payload).length
        (senc msg.payload) rest i bit inHeader Hh rfl hplen hi

theorem C5_mac_bitflip_witness :
    ∃ w st2,
      writeQKCMsg wH wsenc false wks ⟨0, [1]⟩ ⟨0, 2, [10, 250]⟩ =
        Except.ok (w, st2) ∧
      readQKCMsg wH wsdl wsd false wks ⟨0, [1]⟩
        (flipByte (w ++ [9]) (if true then 16 + 4 else (w.length - 16) + 4) 3) =
        Except.error (if true then FrameError.badHeaderMac else FrameError.badFrameMac) :=
  C5_mac_bitflip wH wsenc wsdl wsd false wks ⟨0, [1]⟩ ⟨0, 2, [10, 250]⟩ [9] 4 3 true
    (fun l => by simp [wH]) rfl (by decide)
    (fun l h => Nat.lt_of_le_of_lt h (by decide)) (by decide)

/-- C6: with compression enabled, for every received frame whose body declares
a decompressed length above maxUint24, readQKCMsg returns the too-large error,
and decompression is never attempted: the result is the same whatever the
snappy decoder sd does. -/
theorem C6_oversize_decode_rejected (H : MacCtx) (sdl : Bytes → Except Unit Nat)
    (ks : Nat → Nat) (st : HalfState) (body : Bytes) (n : Nat) (rest : Bytes)
    (Hh : ∀ l, (H.hash l).length = 32)
    (hblen : body.length < 4294967296)
    (hdl : sdl body = Except.ok n) (hn : maxUint24 < n) :
    ∀ sd : Bytes → Except Unit Bytes,
      readQKCMsg H sdl sd true ks st (wireOf H ks st body.length body ++ rest) =
        Except.error FrameError.tooLarge := by
  intro sd
  rw [readQKCMsg_wireOf H sdl sd true ks st body.length body rest Hh rfl hblen]
  simp [snappyPostProcess, hdl, hn]

theorem C6_oversize_decode_rejected_witness :
    readQKCMsg wH (fun _ => Except.ok 16777216) wsd true wks ⟨0, [2]⟩
      (wireOf wH wks ⟨0, [2]⟩ 3 [1, 2, 3] ++ [5]) = Except.error FrameError.tooLarge :=
  C6_oversize_decode_rejected wH (fun _ => Except.ok 16777216) wks ⟨0, [2]⟩ [1, 2, 3]
    16777216 [5] (fun l => by simp [wH]) (by decide) rfl (by decide) wsd

/-- C7: with compression enabled, writeQKCMsg rejects every message whose
declared uncompressed size exceeds maxUint24 with the too-large error, before
producing any wire bytes or successor egress state; for every message at or
below the bound it succeeds, compresses the payload, and uses the compressed
length as the frame's logical length: the decrypted header encodes the
compressed length and the frame body is the encrypted compressed payload. -/
theorem C7_write_snappy_bound (H : MacCtx) (senc : Bytes → Bytes) (ks : Nat → Nat)
    (st : HalfState) (msg : Msg)
    (Hh : ∀ l, (H.hash l).length = 32) :
    (maxUint24 < msg.size →
      writeQKCMsg H senc true ks st msg = Except.error FrameError.tooLarge) ∧
    (msg.size ≤ maxUint24 →
      ∃ w st2, writeQKCMsg H senc true ks st msg = Except.ok (w, st2) ∧
        xorKeyStream ks st.pos (w.take 16) =
          putUint32 (senc msg.payload).length ++ List.replicate 12 0 ∧
        xorKeyStream ks (st.pos + 16) ((w.drop 32).take (senc msg.payload).length) =
          senc msg.payload) := by
  constructor
  · intro h
    rw [writeQKCMsg, if_pos rfl, if_pos h]
  · intro h
    refine ⟨wireOf H ks st (senc msg.payload).length (senc msg.payload),
      stAfter H ks st (senc msg.payload).length (senc msg.payload),
      by rw [writeQKCMsg, if_pos rfl, if_neg (by omega)], ?_, ?_⟩
    · have htk : (wireOf H ks st (senc msg.payload).length (senc msg.payload)).take 16 =
          encHeadOf ks st (senc msg.payload).length := by
        rw [wireOf, List.append_assoc, List.append_assoc]
        exact List.take_left' (length_encHeadOf ks st (senc msg.payload).length)
      rw [htk, encHeadOf, xorKeyStream_xorKeyStream, headPlainOf]
    · have hdr : (wireOf H ks st (senc msg.payload).length (senc msg.payload)).drop 32 =
          encBodyOf ks st (senc msg.payload) ++
            frameMacOf H ks st (senc msg.payload).length (senc msg.payload) := by
        rw [wireOf, List.append_assoc, List.append_assoc]
        have h1 : (32 : Nat) = (encHeadOf ks st (senc msg.payload).length).length + 16 := by
          rw [length_encHeadOf]
        rw [h1, List.drop_append]
        exact List.drop_left' (length_headerMacOf Hh ks st (senc msg.payload).length)
      rw [hdr, List.take_left' (length_encBodyOf ks st (senc msg.payload)),
        encBodyOf, xorKeyStream_xorKeyStream]

theorem C7_write_snappy_bound_witness :
    ∃ w st2, writeQKCMsg wH wsenc true wks ⟨0, []⟩ ⟨0, 2, [10, 250]⟩ = Except.ok (w, st2) ∧
      xorKeyStream wks 0 (w.take 16) =
        putUint32 (wsenc [10, 250]).length ++ List.replicate 12 0 ∧
      xorKeyStream wks (0 + 16) ((w.drop 32).take (wsenc [10, 250]).length) =
        wsenc [10, 250] :=
  (C7_write_snappy_bound wH wsenc wks ⟨0, []⟩ ⟨0, 2, [10, 250]⟩
    (fun l => by simp [wH])).2 (by decide)

end QKC

namespace Config

/-- C9: for every input accepted by UnmarshalJSON, the resulting config's
WSPort equals DefaultWSPort (line 40), regardless of any
WEBSOCKET_JSON_RPC_PORT value present in the input. -/
theorem C9_unmarshal_forces_wsport (defaultWSPort : Nat) (input : SlaveConfigJSON) :
    (UnmarshalJSON defaultWSPort input).WSPort = defaultWSPort := rfl

/-- C10: marshalling a SlaveConfig and unmarshalling the result yields a config
whose IP, Port and ID equal the original's, whose ChainMaskList has the same
length with pairwise-equal GetMask values, and whose WSPort equals
DefaultWSPort. -/
theorem C10_marshal_unmarshal_roundtrip (defaultWSPort : Nat) (s : SlaveConfig) :
    (UnmarshalJSON defaultWSPort (MarshalJSON s)).IP = s.IP ∧
    (UnmarshalJSON defaultWSPort (MarshalJSON s)).Port = s.Port ∧
    (UnmarshalJSON defaultWSPort (MarshalJSON s)).ID = s.ID ∧
    (UnmarshalJSON defaultWSPort (MarshalJSON s)).ChainMaskList.length =
      s.ChainMaskList.length ∧
    (UnmarshalJSON defaultWSPort (MarshalJSON s)).ChainMaskList.map ChainMask.GetMask =
      s.ChainMaskList.map ChainMask.GetMask ∧
    (UnmarshalJSON defaultWSPort (MarshalJSON s)).WSPort = defaultWSPort := by
  refine ⟨rfl, rfl, rfl, ?_, ?_, rfl⟩
  · simp [UnmarshalJSON, MarshalJSON]
  · simp [UnmarshalJSON, MarshalJSON, List.map_map, Function.comp_def, NewChainMask,
      ChainMask.GetMask]

end Config
